import Mathlib

/-!
Verification development for the NATS Raft consensus core
(`server/raft.go` of nats-account-server's vendored nats-server).

The Go source is shallowly embedded: byte strings become `List Nat`
(each element a byte value `< 256`), Go's `uint64`/`uint32`/`uint16`
arithmetic is `Nat` with explicit `% 2^w` where the source truncates,
maps become association lists, channels become explicit buffers with a
capacity, and fallible operations return `Option`.  Wall-clock
timestamps (`time.Now().UnixNano()`) are threaded as an explicit
`now : Int` parameter.  Disk writes (`writeTermVote`, `writePeerState`)
and message sends (`sendRPC`, `sendReply`, heartbeats) are effects on
the outside world; where a claim needs them they are surfaced in the
return value, otherwise they are dropped with a note at the definition.
-/

namespace NatsRaft

/-- A peer/server id: the raw bytes of the Go string (ids are the first
`idLen = 8` bytes of the server hash). -/
abbrev ID := List Nat

/-- `idLen` from raft.go:1083. -/
def idLen : Nat := 8

/-- Little-endian encoding of `x` into `k` bytes, as Go's
`binary.LittleEndian.PutUintNN` produces (low byte first, value
truncated mod `256^k`). -/
def putBytes : Nat → Nat → List Nat
  | 0, _ => []
  | k + 1, x => x % 256 :: putBytes k (x / 256)

/-- Little-endian read of `k` bytes from the front of a list, as Go's
`binary.LittleEndian.UintNN` computes on a byte slice (missing bytes
read as 0 never happens on the Go side because the length is checked
before the read; the `[]` case is unreachable in checked contexts). -/
def getBytes : Nat → List Nat → Nat
  | 0, _ => 0
  | _ + 1, [] => 0
  | k + 1, b :: l => b + 256 * getBytes k l

/-- Go's `copy(buf[:k], s)` into a zero-initialised window of width `k`:
the first `min k s.length` bytes of `s`, zero-padded to width `k`. -/
def padTo (k : Nat) (s : List Nat) : List Nat :=
  s.take k ++ List.replicate (k - s.length) 0

/-! ## Entry types (raft.go:978-1010)

`EntryType` is a `uint8` tag; we keep the numeric representation used
on the wire. -/

def EntryNormal : Nat := 0
def EntrySnapshot : Nat := 1
def EntryPeerState : Nat := 2
def EntryAddPeer : Nat := 3
def EntryRemovePeer : Nat := 4
def EntryLeaderTransfer : Nat := 5

/-- `Entry` (raft.go:1007-1010): a tagged record `{Type, Data}`. -/
structure Entry where
  type : Nat
  data : List Nat
deriving DecidableEq, Repr

/-! ## Append-entry wire format (raft.go:966-1070) -/

/-- `appendEntry` (raft.go:966-976), wire fields only; the internal
`reply`/`buf` fields are transport bookkeeping, not wire content. -/
structure AppendEntry where
  leader : ID
  term : Nat
  commit : Nat
  pterm : Nat
  pindex : Nat
  entries : List Entry
deriving DecidableEq, Repr

/-- `appendEntryBaseLen = idLen + 4*8 + 2` (raft.go:1017). -/
def appendEntryBaseLen : Nat := idLen + 4 * 8 + 2

/-- One encoded entry within an append-entry: u32 length-including-type,
u8 type tag, data bytes (raft.go:1033-1040). -/
def encodeEntry (e : Entry) : List Nat :=
  putBytes 4 (e.data.length + 1) ++ [e.type % 256] ++ e.data

/-- `appendEntry.encode` (raft.go:1019-1042): 8-byte leader id
(zero-padded), u64 term, u64 commit, u64 pterm, u64 pindex, u16 entry
count, then the encoded entries. -/
def AppendEntry.encode (ae : AppendEntry) : List Nat :=
  padTo idLen ae.leader ++ putBytes 8 ae.term ++ putBytes 8 ae.commit ++
    putBytes 8 ae.pterm ++ putBytes 8 ae.pindex ++
    putBytes 2 ae.entries.length ++ (ae.entries.map encodeEntry).flatten

/-- Result of `decodeAppendEntry`: Go returns `nil` for a short message,
a decoded value otherwise — but its entry loop indexes the slice
without bounds checks, so a malformed count/length field makes the Go
code panic (index/slice out of range).  `fault` models that panic. -/
inductive DecodeAE where
  | fault
  | nil
  | ok (ae : AppendEntry)
deriving DecidableEq, Repr

/-- The entry-decoding loop of `decodeAppendEntry` (raft.go:1059-1066),
phrased on the remaining suffix `rem = msg[ri:]`.  Each iteration Go
reads `le.Uint32(msg[ri:])` (needs 4 bytes), `msg[ri]` after `ri += 4`
(needs 1 byte), then slices `msg[ri+1 : ri+le]` (needs `1 ≤ le` and
`ri+le ≤ len(msg)`); any shortfall is a runtime panic, modelled as
`none`. -/
def decodeEntries : Nat → List Nat → Option (List Entry)
  | 0, _ => some []
  | i + 1, rem =>
    if rem.length < 4 then none
    else
      let elen := getBytes 4 rem
      let rem' := rem.drop 4
      if rem'.length = 0 then none
      else if elen < 1 then none
      else if rem'.length < elen then none
      else
        match decodeEntries i (rem'.drop elen) with
        | none => none
        | some es => some ({ type := rem'.headD 0, data := (rem'.drop 1).take (elen - 1) } :: es)

/-- `decodeAppendEntry` (raft.go:1045-1070).  The `reply`/`buf`
bookkeeping fields are omitted (transport-internal). -/
def decodeAppendEntry (msg : List Nat) : DecodeAE :=
  if msg.length < appendEntryBaseLen then .nil
  else
    match decodeEntries (getBytes 2 (msg.drop 40)) (msg.drop 42) with
    | none => .fault
    | some es =>
        .ok { leader := msg.take idLen
              term := getBytes 8 (msg.drop 8)
              commit := getBytes 8 (msg.drop 16)
              pterm := getBytes 8 (msg.drop 24)
              pindex := getBytes 8 (msg.drop 32)
              entries := es }

/-! ## Append-entry response wire format (raft.go:1072-1113) -/

/-- `appendEntryResponse` (raft.go:1073-1080), wire fields only. -/
structure AppendEntryResponse where
  term : Nat
  index : Nat
  peer : ID
  success : Bool
deriving DecidableEq, Repr

/-- `appendEntryResponseLen = 24 + 1` (raft.go:1084). -/
def appendEntryResponseLen : Nat := 24 + 1

/-- `appendEntryResponse.encode` (raft.go:1086-1099).  Go's
`copy(buf[16:], ar.peer)` writes into a zero buffer and the success
byte is written afterwards, so the net effect is the first 8 peer
bytes zero-padded. -/
def AppendEntryResponse.encode (ar : AppendEntryResponse) : List Nat :=
  putBytes 8 ar.term ++ putBytes 8 ar.index ++ padTo idLen ar.peer ++
    [if ar.success then 1 else 0]

/-- `decodeAppendEntryResponse` (raft.go:1101-1113). -/
def decodeAppendEntryResponse (msg : List Nat) : Option AppendEntryResponse :=
  if msg.length ≠ appendEntryResponseLen then none
  else
    some { term := getBytes 8 msg
           index := getBytes 8 (msg.drop 8)
           peer := (msg.drop 16).take idLen
           success := msg.getD 24 0 = 1 }

/-! ## Vote request wire format (raft.go:1945-1982) -/

/-- `voteRequest` (raft.go:1945-1952), wire fields only. -/
structure VoteRequest where
  term : Nat
  lastTerm : Nat
  lastIndex : Nat
  candidate : ID
deriving DecidableEq, Repr

/-- `voteRequestLen = 24 + idLen` (raft.go:1954). -/
def voteRequestLen : Nat := 24 + idLen

/-- `voteRequest.encode` (raft.go:1956-1965). -/
def VoteRequest.encode (vr : VoteRequest) : List Nat :=
  putBytes 8 vr.term ++ putBytes 8 vr.lastTerm ++ putBytes 8 vr.lastIndex ++
    padTo idLen vr.candidate

/-- `decodeVoteRequest` (raft.go:1967-1982); the `reply` argument only
fills the transport-internal field and is omitted. -/
def decodeVoteRequest (msg : List Nat) : Option VoteRequest :=
  if msg.length ≠ voteRequestLen then none
  else
    some { term := getBytes 8 msg
           lastTerm := getBytes 8 (msg.drop 8)
           lastIndex := getBytes 8 (msg.drop 16)
           candidate := (msg.drop 24).take idLen }

/-! ## Vote response wire format (raft.go:2043-2073) -/

/-- `voteResponse` (raft.go:2044-2048). -/
structure VoteResponse where
  term : Nat
  peer : ID
  granted : Bool
deriving DecidableEq, Repr

/-- `voteResponseLen = 8 + 8 + 1` (raft.go:2050). -/
def voteResponseLen : Nat := 8 + 8 + 1

/-- `voteResponse.encode` (raft.go:2052-2063); as with the
append-entry response, the peer copy lands in bytes 8..15 zero-padded
and byte 16 is the granted flag. -/
def VoteResponse.encode (vr : VoteResponse) : List Nat :=
  putBytes 8 vr.term ++ padTo idLen vr.peer ++ [if vr.granted then 1 else 0]

/-- `decodeVoteResponse` (raft.go:2065-2073). -/
def decodeVoteResponse (msg : List Nat) : Option VoteResponse :=
  if msg.length ≠ voteResponseLen then none
  else
    some { term := getBytes 8 msg
           peer := (msg.drop 8).take idLen
           granted := msg.getD 16 0 = 1 }

/-! ## Peer-state record (raft.go:1884-1918) -/

/-- `peerState` (raft.go:1884-1887): known peers plus expected cluster
size.  Go's `clusterSize` is an `int` that goes through `uint32` on the
wire. -/
structure PeerStateRec where
  knownPeers : List ID
  clusterSize : Nat
deriving DecidableEq, Repr

/-- `encodePeerState` (raft.go:1889-1900): u32 clusterSize, u32 peer
count, then `idLen` bytes per peer (zero-padded by the copy into the
zeroed buffer). -/
def encodePeerState (ps : PeerStateRec) : List Nat :=
  putBytes 4 ps.clusterSize ++ putBytes 4 ps.knownPeers.length ++
    (ps.knownPeers.map (padTo idLen)).flatten

/-- The id-reading loop of `decodePeerState` (raft.go:1910-1913):
`for i, ri, n := 0, 0, expectedPeers; i < n && ri < len(buf); i++`. -/
def readPeers : Nat → List Nat → List ID
  | 0, _ => []
  | i + 1, buf =>
    if buf.length = 0 then []
    else buf.take idLen :: readPeers i (buf.drop idLen)

/-- `decodePeerState` (raft.go:1902-1918). -/
def decodePeerState (buf : List Nat) : Option PeerStateRec :=
  if buf.length < 8 then none
  else
    let csz := getBytes 4 buf
    let expected := getBytes 4 (buf.drop 4)
    let peers := readPeers expected (buf.drop 8)
    if peers.length ≠ expected then none
    else some { knownPeers := peers, clusterSize := csz }

/-! ## Node state (raft.go:81-179) -/

/-- `RaftState` (raft.go:81-90). -/
inductive RState where
  | Follower
  | Leader
  | Candidate
  | Observer
  | Closed
deriving DecidableEq, Repr

/-- `lps` (raft.go:176-179): last-seen timestamp and last-replicated
index for a peer. -/
structure Lps where
  ts : Int
  li : Nat
deriving DecidableEq, Repr

/-- `CommittedEntry` (raft.go:961-964). -/
structure CommittedEntry where
  index : Nat
  entries : List Entry
deriving DecidableEq, Repr

/-- Association-list lookup, modelling Go map read `m[k]` (`nil` when
absent). -/
def alookup {α : Type} [DecidableEq α] {β : Type} (k : α) :
    List (α × β) → Option β
  | [] => none
  | (k', v) :: rest => if k = k' then some v else alookup k rest

/-- Association-list update, modelling Go map write `m[k] = v` for a
key already present (first binding wins, matching `alookup`). -/
def aset {α : Type} [DecidableEq α] {β : Type} (k : α) (v : β) :
    List (α × β) → List (α × β)
  | [] => [(k, v)]
  | (k', v') :: rest => if k = k' then (k, v) :: rest else (k', v') :: aset k v rest

/-- Association-list removal, modelling Go `delete(m, k)`. -/
def aerase {α : Type} [DecidableEq α] {β : Type} (k : α) :
    List (α × β) → List (α × β)
  | [] => []
  | (k', v') :: rest => if k = k' then rest else (k', v') :: aerase k rest

/-- `noVote = noLeader = _EMPTY_` (raft.go:2222-2225): the empty byte
string. -/
def noVote : ID := []

/-- The fields of `raft` (raft.go:108-162) that the verified claims
touch.  Channels carrying work for the main loop (`propc`, `reqs`,
`votes`, `resp`, `stepdown`, `leadc`) are external queues; the apply
channel is the one channel whose occupancy matters to these claims, so
it is kept explicitly as a buffer plus capacity.  `progress` keeps the
per-peer catch-up index queues (`chan uint64`) as lists.
Timers, subscriptions and the transport are outside the state. -/
structure RaftNode where
  id : ID
  state : RState
  csz : Nat
  qn : Nat
  peers : List (ID × Lps)
  acks : List (Nat × List ID)
  progress : List (ID × List Nat)
  term : Nat
  pterm : Nat
  pindex : Nat
  sindex : Nat
  commit : Nat
  applied : Nat
  leader : ID
  vote : ID
  paused : Bool
  hcommit : Nat
  applyc : List CommittedEntry
  applycCap : Nat
deriving DecidableEq, Repr

/-- The WAL as seen through `loadEntry` (raft.go:1383-1389): the
decoded append-entry stored at an index, `none` when `LoadMsg` (or the
decode) fails. -/
abbrev Wal := Nat → Option AppendEntry

/-- The error kinds surfaced by the modelled operations
(raft.go:196-209). -/
inductive RErr where
  | entryLoadFailed
  | failedToApply
  | peersNotCurrent
  | unknownPeer
  | notLeader
  | clusterTooSmall
  | corruptPeers
deriving DecidableEq, Repr

/-! ## Peer tracking (raft.go:1503-1530) -/

/-- `trackPeer` (raft.go:1504-1530).  Returns the updated node and
whether `errUnknownPeer` was returned (leader seeing an unexpected new
peer once the full cluster is registered).  The `sendPeerState`
broadcast on `needPeerUpdate` is a transport effect and is dropped
here. -/
def trackPeer (now : Int) (n : RaftNode) (peer : ID) : RaftNode × Bool :=
  if n.state = RState.Leader ∧ alookup peer n.peers = none ∧ n.peers.length ≥ n.csz then
    (n, true)
  else
    match alookup peer n.peers with
    | some ps => ({ n with peers := aset peer { ps with ts := now } n.peers }, false)
    | none => ({ n with peers := aset peer ⟨now, 0⟩ n.peers }, false)

/-! ## Membership application (raft.go:1813-1822, 1425-1436) -/

/-- `processPeerState` (raft.go:1813-1822): adopt the leader's cluster
size and peer set.  Note the source updates `csz` but not `qn`.  The
`writePeerState` disk write is dropped. -/
def processPeerState (n : RaftNode) (ps : PeerStateRec) : RaftNode :=
  { n with csz := ps.clusterSize
           peers := ps.knownPeers.map (fun p => (p, ⟨0, 0⟩)) }

/-- The `EntryAddPeer` arm of `applyCommit` (raft.go:1425-1436): an
unknown peer grows the cluster size, recomputes the quorum and is
tracked.  The `writePeerState` disk write is dropped. -/
def applyAddPeer (now : Int) (n : RaftNode) (data : List Nat) : RaftNode :=
  if alookup data n.peers = none then
    { n with csz := n.csz + 1
             qn := (n.csz + 1) / 2 + 1
             peers := aset data ⟨now, 0⟩ n.peers }
  else n

/-- The `Normal`/`Snapshot` arms of `applyCommit`'s entry switch
(raft.go:1417-1420): entries destined for the apply channel. -/
def isUserEntry (e : Entry) : Bool :=
  e.type = EntryNormal ∨ e.type = EntrySnapshot

/-- One step of the entry loop inside `applyCommit` (raft.go:1415-1437):
`Normal`/`Snapshot` entries are collected for the apply channel, the
others act on the node inline. -/
def applyEntryStep (now : Int) (acc : RaftNode × List Entry) (e : Entry) :
    RaftNode × List Entry :=
  if isUserEntry e then (acc.1, acc.2 ++ [e])
  else if e.type = EntryPeerState then
    (match decodePeerState e.data with
     | some ps => processPeerState acc.1 ps
     | none => acc.1, acc.2)
  else if e.type = EntryAddPeer then (applyAddPeer now acc.1 e.data, acc.2)
  else acc

/-- The head of `applyCommit` (raft.go:1398-1403): set
`commit := index` and, on a leader, drop the ack set for the index. -/
def applyCommitPre (n : RaftNode) (index : Nat) : RaftNode :=
  if n.state = RState.Leader then
    { n with commit := index, acks := aerase index n.acks }
  else { n with commit := index }

/-- `applyCommit` (raft.go:1393-1452): set `commit := index`, drop the
ack set on a leader, load the stored append-entry, run the entry loop,
then either enqueue the user-visible batch on the (bounded) apply
channel or advance `applied` inline; on a load failure or a full apply
channel, roll `commit` back to its original value and return the
error. -/
def applyCommit (wal : Wal) (now : Int) (n : RaftNode) (index : Nat) :
    RaftNode × Option RErr :=
  if index ≤ n.commit then (n, none)
  else
    match wal index with
    | none => ({ applyCommitPre n index with commit := n.commit },
               some RErr.entryLoadFailed)
    | some ae =>
        let r := ae.entries.foldl (applyEntryStep now) (applyCommitPre n index, [])
        if r.2 ≠ [] then
          if r.1.applyc.length < r.1.applycCap then
            ({ r.1 with applyc := r.1.applyc ++ [⟨index, r.2⟩] }, none)
          else
            ({ r.1 with commit := n.commit }, some RErr.failedToApply)
        else
          ({ r.1 with applied := index }, none)

/-- The commit loop `for index := lo; index <= hi; index++` with break
on error, as used by `trackResponse` (raft.go:1488-1492),
`processAppendEntry` (raft.go:1797-1801) and `ResumeApply`
(raft.go:538-542).  `fuel = hi + 1 - lo` iterations. -/
def applyLoop (wal : Wal) (now : Int) : Nat → Nat → RaftNode → RaftNode
  | 0, _, n => n
  | fuel + 1, index, n =>
      match applyCommit wal now n index with
      | (n', none) => applyLoop wal now fuel (index + 1) n'
      | (n', some _) => n'

/-! ## Leader ack tracking (raft.go:1455-1501) -/

/-- The peer-index update of `trackResponse` (raft.go:1459-1461). -/
def trackResponsePeer (n : RaftNode) (ar : AppendEntryResponse) : RaftNode :=
  match alookup ar.peer n.peers with
  | some ps =>
      if ar.index > ps.li then
        { n with peers := aset ar.peer { ps with li := ar.index } n.peers }
      else n
  | none => n

/-- The catch-up feed of `trackResponse` (raft.go:1464-1473): an
in-flight catch-up session for the peer receives the acked index (the
blocking fallback for a full channel still delivers, so the model just
appends). -/
def trackResponseProgress (n : RaftNode) (ar : AppendEntryResponse) : RaftNode :=
  match alookup ar.peer n.progress with
  | some q => { n with progress := aset ar.peer (q ++ [ar.index]) n.progress }
  | none => n

/-- The ack-counting tail of `trackResponse` (raft.go:1484-1495): add
the peer to the index's ack set; at quorum, advance `commit` one index
at a time up to the acked index. -/
def trackResponseAck (wal : Wal) (now : Int) (m : RaftNode) (ar : AppendEntryResponse)
    (results : List ID) : RaftNode :=
  let results' := if ar.peer ∈ results then results else ar.peer :: results
  let n3 := { m with acks := aset ar.index results' m.acks }
  if results'.length ≥ n3.qn then
    applyLoop wal now (ar.index - n3.commit) (n3.commit + 1) n3
  else n3

/-- `trackResponse` (raft.go:1455-1501): record the peer's replicated
index, feed any catch-up session, then count the ack; at quorum,
advance `commit` one index at a time up to the acked index.  The
conditional heartbeat after a commit (raft.go:1493-1499) is a
transport effect and is dropped. -/
def trackResponse (wal : Wal) (now : Int) (n : RaftNode) (ar : AppendEntryResponse) :
    RaftNode :=
  let n2 := trackResponseProgress (trackResponsePeer n ar) ar
  if ar.index ≤ n2.commit then n2
  else
    match alookup ar.index n2.acks with
    | none => n2
    | some results => trackResponseAck wal now n2 ar results

/-! ## Apply pause/resume (raft.go:524-546) and the follower
commit-advance (raft.go:1792-1803) -/

/-- `PauseApply` (raft.go:524-530). -/
def PauseApply (n : RaftNode) : RaftNode :=
  { n with paused := true, hcommit := n.commit }

/-- `ResumeApply` (raft.go:532-546): catch the apply channel up from
`commit+1` to `hcommit`, then clear the pause state. -/
def ResumeApply (wal : Wal) (now : Int) (n : RaftNode) : RaftNode :=
  let n1 :=
    if n.hcommit > n.commit then
      applyLoop wal now (n.hcommit - n.commit) (n.commit + 1) n
    else n
  { n1 with paused := false, hcommit := 0 }

/-- The commit-advance tail of `processAppendEntry`
(raft.go:1792-1803): when the leader's commit runs ahead of ours,
either park it in `hcommit` (paused) or apply the span. -/
def advanceCommitOnAppend (wal : Wal) (now : Int) (n : RaftNode) (aeCommit : Nat) :
    RaftNode :=
  if aeCommit > n.commit then
    if n.paused then { n with hcommit := aeCommit }
    else applyLoop wal now (aeCommit - n.commit) (n.commit + 1) n
  else n

/-! ## Election: candidate tally (raft.go:1532-1573, 2176-2186) and
vote granting (raft.go:2090-2135) -/

/-- `wonElection` (raft.go:2176-2178): `votes >= n.quorumNeeded()`. -/
def wonElection (n : RaftNode) (votes : Nat) : Bool :=
  votes ≥ n.qn

/-- `switchToLeader` (raft.go:2251-2257) through `switchState`
(raft.go:2203-2220): adopt self as leader, clear the vote.  The
election-timer reset, `writeTermVote` and the lead-change notification
are external effects and are dropped. -/
def switchToLeader (n : RaftNode) : RaftNode :=
  { n with leader := n.id, state := RState.Leader, vote := noVote }

/-- The `vresp := <-n.votes` arm of `runAsCandidate`
(raft.go:1556-1565): track the peer, and count the response only when
it is granted and carries a term at most ours; reaching quorum makes
us leader.  Returns (node, tally, becameLeader). -/
def candidateVoteStep (now : Int) (n : RaftNode) (votes : Nat) (vresp : VoteResponse) :
    RaftNode × Nat × Bool :=
  let n1 := (trackPeer now n vresp.peer).1
  if vresp.granted ∧ vresp.term ≤ n1.term then
    if wonElection n1 (votes + 1) then (switchToLeader n1, votes + 1, true)
    else (n1, votes + 1, false)
  else (n1, votes, false)

/-- The tally loop of `runAsCandidate` over a sequence of inbound vote
responses, starting from the self-vote `votes := 1` (raft.go:1544) and
stopping at victory. -/
def candidateLoop (now : Int) : RaftNode → Nat → List VoteResponse → RaftNode × Nat × Bool
  | n, votes, [] => (n, votes, false)
  | n, votes, v :: vs =>
      let r := candidateVoteStep now n votes v
      if r.2.2 then r else candidateLoop now r.1 r.2.1 vs

/-- `runAsCandidate`'s vote accounting on a list of responses
(raft.go:1543-1565). -/
def runAsCandidateTally (now : Int) (n : RaftNode) (resps : List VoteResponse) :
    RaftNode × Nat × Bool :=
  candidateLoop now n 1 resps

/-- The outputs of `processVoteRequest` beyond the node itself: the
reply, whether the election timer was reset, whether a stepdown was
posted, and the `writeTermVote` persist calls in order. -/
structure VoteReqOut where
  node : RaftNode
  resp : VoteResponse
  timerReset : Bool
  stepdown : Bool
  persisted : List (Nat × ID)
deriving DecidableEq, Repr

/-- `processVoteRequest` (raft.go:2090-2135).  The reply is built from
the term read before any update (raft.go:2092).  Note the grant test
is Go's `vr.lastIndex >= n.pindex && n.vote == noVote || n.vote ==
vr.candidate`, in which `&&` binds tighter than `||`. -/
def processVoteRequest (now : Int) (n : RaftNode) (vr : VoteRequest) : VoteReqOut :=
  let respTerm := n.term
  let tp := trackPeer now n vr.candidate
  if tp.2 then
    { node := tp.1, resp := ⟨respTerm, tp.1.id, false⟩, timerReset := false,
      stepdown := false, persisted := [] }
  else
    let n1 := tp.1
    if vr.term < n1.term then
      { node := n1, resp := ⟨respTerm, n1.id, false⟩, timerReset := false,
        stepdown := false, persisted := [] }
    else
      let higher := vr.term > n1.term
      let n2 := if higher then { n1 with term := vr.term, vote := noVote } else n1
      let w1 : List (Nat × ID) := if higher then [(vr.term, noVote)] else []
      let sd := higher ∧ n2.state = RState.Candidate
      if (vr.lastIndex ≥ n2.pindex ∧ n2.vote = noVote) ∨ n2.vote = vr.candidate then
        { node := { n2 with vote := vr.candidate },
          resp := ⟨respTerm, n2.id, true⟩, timerReset := true, stepdown := sd,
          persisted := w1 ++ [(n2.term, vr.candidate)] }
      else
        { node := n2, resp := ⟨respTerm, n2.id, false⟩, timerReset := false,
          stepdown := sd, persisted := w1 }

/-! ## Compaction entry point (raft.go:552-567) -/

/-- `Compact` (raft.go:552-567).  Returns the node, the error, and
whether `n.wal.Compact` was invoked (the WAL's own result is treated
as an external success). -/
def Compact (n : RaftNode) (index : Nat) : RaftNode × Option RErr × Bool :=
  if n.state ≠ RState.Leader then (n, none, true)
  else if n.peers.any (fun p => p.1 ≠ n.id ∧ p.2.li < index) then
    (n, some RErr.peersNotCurrent, false)
  else (n, none, false)

/-! ## Node construction: durable term/vote and the cluster-size check
(raft.go:251-299, 2011-2023) -/

/-- The term/vote file contents as handed to `readTermVote`: `none`
models an `ioutil.ReadFile` error. -/
abbrev TermVoteFile := Option (List Nat)

/-- The result triple of `readTermVote` (raft.go:2011-2023); `err` is
whether a read error was returned. -/
structure TermVoteRead where
  term : Nat
  voted : ID
  err : Bool
deriving DecidableEq, Repr

/-- `readTermVote` (raft.go:2011-2023): a read error yields
`(0, noVote, err)`; a short file yields `(0, noVote, nil)`; otherwise
u64 term then the remaining bytes as the voted-for id. -/
def readTermVote (file : TermVoteFile) : TermVoteRead :=
  match file with
  | none => ⟨0, noVote, true⟩
  | some buf =>
      if buf.length < idLen + 8 then ⟨0, noVote, false⟩
      else ⟨getBytes 8 buf, buf.drop 8, false⟩

/-- The durable-state initialisation of `startRaftNode`
(raft.go:251-290): read the peer-state file, refuse a cluster smaller
than 2, seed `csz`/`qn`, and adopt the stored term/vote under the
source's condition `err != nil && term > 0` (raft.go:287). -/
structure InitState where
  csz : Nat
  qn : Nat
  term : Nat
  vote : ID
deriving DecidableEq, Repr

/-- `startRaftNode`'s durable-state prefix (raft.go:251-290).  `none`
models an error return (peer-state unreadable/corrupt or cluster too
small). -/
def startRaftNodeInit (psFile : Option (List Nat)) (tvFile : TermVoteFile) :
    Option InitState :=
  match psFile with
  | none => none
  | some pbuf =>
      match decodePeerState pbuf with
      | none => none
      | some ps =>
          if ps.clusterSize < 2 then none
          else
            let tv := readTermVote tvFile
            if tv.err ∧ tv.term > 0 then
              some ⟨ps.clusterSize, ps.clusterSize / 2 + 1, tv.term, tv.voted⟩
            else
              some ⟨ps.clusterSize, ps.clusterSize / 2 + 1, 0, noVote⟩

/-! ## Concrete fixtures used by counterexamples, code-bug evaluations
and witnesses.  Ids are 8-byte strings as the source requires. -/

def idL : ID := [76, 76, 76, 76, 76, 76, 76, 76]
def idA : ID := [65, 65, 65, 65, 65, 65, 65, 65]
def idB : ID := [66, 66, 66, 66, 66, 66, 66, 66]
def idC : ID := [67, 67, 67, 67, 67, 67, 67, 67]
def idD : ID := [68, 68, 68, 68, 68, 68, 68, 68]
def idE : ID := [69, 69, 69, 69, 69, 69, 69, 69]

/-- A follower node fresh out of construction, used as a base for the
concrete scenarios (channel capacity 512 as in raft.go:277). -/
def baseNode : RaftNode :=
  { id := idL, state := RState.Follower, csz := 3, qn := 2, peers := [],
    acks := [], progress := [], term := 0, pterm := 0, pindex := 0,
    sindex := 0, commit := 0, applied := 0, leader := noVote, vote := noVote,
    paused := false, hcommit := 0, applyc := [], applycCap := 512 }

/-! ## C9: transport decode totality -/

/-- A 42-byte append-entry message whose entry-count field claims one
entry while no entry bytes follow. -/
def c9BadMsg : List Nat := List.replicate 40 0 ++ [1, 0]

/-! ## C5: durable term/vote restoration at construction -/

/-- An on-disk peer-state file for the 3-node cluster {A, B, L}. -/
def psFileGood : List Nat := encodePeerState ⟨[idA, idB, idL], 3⟩

/-- An on-disk term/vote file recording term 5 and a vote for A. -/
def tvFileStored : List Nat := putBytes 8 5 ++ idA

/-! ## C3: quorum arithmetic on membership apply -/

/-- A `PeerState` membership record for a 5-node cluster. -/
def psRec5 : PeerStateRec := ⟨[idA, idB, idC, idD, idE], 5⟩

/-- The WAL holding, at index 1, an append-entry carrying that
`PeerState` entry. -/
def walC3 : Wal := fun i =>
  if i = 1 then
    some ⟨idL, 1, 0, 0, 0, [⟨EntryPeerState, encodePeerState psRec5⟩]⟩
  else none

/-- A 3-node follower about to apply index 1. -/
def nC3 : RaftNode := { baseNode with term := 1 }

/-! ## C2: vote-grant condition -/

/-- A follower at term 5 with log up to index 10 that has already voted
for A in this term. -/
def nC2 : RaftNode :=
  { baseNode with term := 5, pterm := 5, pindex := 10, vote := idA,
                  peers := [(idA, ⟨0, 3⟩)] }

/-- A repeat vote request from A in the same term whose log ends at
index 3, far behind ours. -/
def vrC2 : VoteRequest := { term := 5, lastTerm := 5, lastIndex := 3, candidate := idA }

/-! ## C1: commit advance and the no-commit-across-terms rule -/

/-- A WAL whose entry at index 1 was proposed in term 1 (it carries one
`Normal` payload). -/
def walC1 : Wal := fun i =>
  if i = 1 then some ⟨idL, 1, 0, 0, 0, [⟨EntryNormal, [120]⟩]⟩ else none

/-- A leader now at term 2 with the term-1 entry at index 1 still
uncommitted; the ack set holds only its self-ack. -/
def nC1 : RaftNode :=
  { baseNode with state := RState.Leader, term := 2, pterm := 1, pindex := 1,
                  leader := idL, acks := [(1, [idL])],
                  peers := [(idL, ⟨0, 1⟩), (idA, ⟨0, 0⟩), (idB, ⟨0, 0⟩)] }

/-- A's successful append-entry response for index 1. -/
def arC1 : AppendEntryResponse := ⟨1, 1, idA, true⟩

/-! ## C6: candidate tallying -/

/-- A candidate at term 3 needing 2 votes. -/
def nC6 : RaftNode :=
  { baseNode with state := RState.Candidate, term := 3,
                  peers := [(idA, ⟨0, 0⟩), (idB, ⟨0, 0⟩)] }

/-- A granted vote response carrying term 4 > 3. -/
def vrespHigh : VoteResponse := ⟨4, idA, true⟩

/-- A granted vote response carrying the stale term 2 < 3. -/
def vrespStale : VoteResponse := ⟨2, idB, true⟩

/-! ## C7: pause/resume of the apply pipeline -/

/-- The paused leader variant of the C1 scenario. -/
def nC7 : RaftNode :=
  { baseNode with state := RState.Leader, term := 1, pterm := 1, pindex := 1,
                  leader := idL, acks := [(1, [idL])],
                  peers := [(idL, ⟨0, 1⟩), (idA, ⟨0, 0⟩), (idB, ⟨0, 0⟩)],
                  paused := true, hcommit := 0 }

/-- The WAL for the paused-leader scenario: a term-1 `Normal` entry at
index 1. -/
def walC7 : Wal := fun i =>
  if i = 1 then some ⟨idL, 1, 0, 0, 0, [⟨EntryNormal, [121]⟩]⟩ else none

/-! ## Fixtures for the witnesses of the hypothesis-bearing theorems -/

/-- C1 witness WAL: index 1 holds a `LeaderTransfer` entry (applies
inline, no user-visible delivery). -/
def walW1 : Wal := fun i =>
  if i = 1 then some ⟨idL, 1, 0, 0, 0, [⟨EntryLeaderTransfer, idA⟩]⟩ else none

/-- C1 witness leader: term 2, one self-ack for index 1, quorum 2. -/
def nW1 : RaftNode :=
  { baseNode with state := RState.Leader, term := 2, pterm := 1, pindex := 1,
                  leader := idL, acks := [(1, [idL])],
                  peers := [(idL, ⟨0, 1⟩), (idA, ⟨0, 0⟩), (idB, ⟨0, 0⟩)] }

/-- C4 witness WAL that always fails to load. -/
def walW4none : Wal := fun _ => none

/-- C4 witness node with commit already at 3. -/
def n4a : RaftNode := { baseNode with commit := 3 }

/-- C4 witness node at commit 0 (load-failure case). -/
def n4b : RaftNode := baseNode

/-- C4 witness append-entry with one `Normal` payload. -/
def aeW4 : AppendEntry := ⟨idL, 1, 0, 0, 0, [⟨EntryNormal, [7]⟩]⟩

/-- C4 witness WAL holding `aeW4` at index 1. -/
def walW4full : Wal := fun i => if i = 1 then some aeW4 else none

/-- C4 witness node whose apply channel is full (capacity 1, one
buffered entry). -/
def n4c : RaftNode := { baseNode with applyc := [⟨0, []⟩], applycCap := 1 }

/-- C6 witness candidate at term 3 with quorum 2. -/
def nW6 : RaftNode := { baseNode with state := RState.Candidate, term := 3 }

/-- C7 witness entries: a `Normal` payload per index. -/
def wW7 : Nat → AppendEntry := fun i => ⟨idL, 1, 0, 0, 0, [⟨EntryNormal, [i % 256]⟩]⟩

/-- C7 witness WAL holding `wW7` at indices 1 and 2. -/
def walW7 : Wal := fun i => if 1 ≤ i ∧ i ≤ 2 then some (wW7 i) else none

/-- C7 witness paused follower (for parking the commit). -/
def nW7p : RaftNode := { baseNode with paused := true }

/-- C7 witness node about to resume with `hcommit = 2`. -/
def nW7r : RaftNode := { baseNode with paused := true, hcommit := 2 }

/-- C7 witness paused leader with a self-ack for index 1. -/
def nW7t : RaftNode :=
  { baseNode with paused := true, state := RState.Leader, term := 1,
                  acks := [(1, [idL])] }

/-- C8 witness values, one per wire format. -/
def aeW8 : AppendEntry :=
  ⟨idL, 3, 2, 1, 4, [⟨EntryNormal, [120, 121]⟩, ⟨EntrySnapshot, []⟩]⟩

def arW8 : AppendEntryResponse := ⟨3, 4, idA, true⟩

def vqW8 : VoteRequest := ⟨5, 4, 9, idB⟩

def vrW8 : VoteResponse := ⟨5, idC, false⟩

def psW8 : PeerStateRec := ⟨[idA, idB, idL], 3⟩

/-- C10 witness leader whose other peers are at indices 7 and 9. -/
def nW10 : RaftNode :=
  { baseNode with state := RState.Leader,
                  peers := [(idL, ⟨0, 0⟩), (idA, ⟨0, 7⟩), (idB, ⟨0, 9⟩)] }

/-! # Theorems

Helper lemmas first, then one theorem per claim (with witnesses and
counterexamples as required). -/

@[simp] theorem putBytes_length (k x : Nat) : (putBytes k x).length = k := by
  induction k generalizing x with
  | zero => rfl
  | succ k ih => simp [putBytes, ih]

theorem getBytes_putBytes_append (k : Nat) :
    ∀ (x : Nat) (rest : List Nat), getBytes k (putBytes k x ++ rest) = x % 256 ^ k := by
  induction k with
  | zero => intro x rest; simp [putBytes, getBytes, Nat.mod_one]
  | succ k ih =>
      intro x rest
      have h : (256 : Nat) ^ (k + 1) = 256 * 256 ^ k := by ring
      rw [h, Nat.mod_mul]
      simp [putBytes, getBytes, ih]

theorem getBytes_putBytes (k x : Nat) (h : x < 256 ^ k) (rest : List Nat) :
    getBytes k (putBytes k x ++ rest) = x := by
  rw [getBytes_putBytes_append, Nat.mod_eq_of_lt h]

@[simp] theorem padTo_self (k : Nat) (s : List Nat) (h : s.length = k) :
    padTo k s = s := by
  simp [padTo, h, List.take_of_length_le (le_of_eq h)]

theorem drop_peel {a : List Nat} {k : Nat} (rest : List Nat) (h : a.length = k) :
    (a ++ rest).drop k = rest := by subst h; exact List.drop_left a rest

theorem take_peel {a : List Nat} {k : Nat} (rest : List Nat) (h : a.length = k) :
    (a ++ rest).take k = a := by subst h; exact List.take_left a rest

theorem getD_peel {a : List Nat} {k : Nat} (x : Nat) (h : a.length = k) :
    (a ++ [x]).getD k 0 = x := by subst h; simp [List.getD_append_right]

theorem decodeEntries_step (k : Nat) (e : Entry) (rest : List Nat)
    (ht : e.type < 256) (hd : e.data.length + 1 < 2 ^ 32) :
    decodeEntries (k + 1) (encodeEntry e ++ rest) =
      (decodeEntries k rest).map (fun es => e :: es) := by
  have hrem : encodeEntry e ++ rest
      = putBytes 4 (e.data.length + 1) ++ (e.type % 256 :: (e.data ++ rest)) := by
    simp [encodeEntry]
  have hget : getBytes 4 (putBytes 4 (e.data.length + 1) ++ (e.type % 256 :: (e.data ++ rest)))
      = e.data.length + 1 := getBytes_putBytes 4 _ (by exact_mod_cast hd) _
  have hdrop : (putBytes 4 (e.data.length + 1) ++ (e.type % 256 :: (e.data ++ rest))).drop 4
      = e.type % 256 :: (e.data ++ rest) := drop_peel _ (putBytes_length 4 _)
  have hlen : (putBytes 4 (e.data.length + 1) ++ (e.type % 256 :: (e.data ++ rest))).length
      = 4 + (1 + (e.data.length + rest.length)) := by
    simp [putBytes_length]; omega
  rw [hrem]
  simp only [decodeEntries, hget, hdrop, hlen]
  rw [if_neg (by omega)]
  simp only [List.length_cons, List.length_append]
  rw [if_neg (by omega), if_neg (by omega), if_neg (by omega)]
  have hdrop2 : (e.type % 256 :: (e.data ++ rest)).drop (e.data.length + 1) = rest := by
    rw [List.drop_succ_cons]
    exact drop_peel _ rfl
  have htake : ((e.type % 256 :: (e.data ++ rest)).drop 1).take (e.data.length + 1 - 1)
      = e.data := by
    simp only [List.drop_succ_cons, List.drop_zero, Nat.add_sub_cancel]
    exact take_peel _ rfl
  rw [hdrop2, htake]
  have hhead : (e.type % 256 :: (e.data ++ rest)).headD 0 = e.type := by
    simp [Nat.mod_eq_of_lt ht]
  rw [hhead]
  cases decodeEntries k rest <;> rfl

theorem decodeEntries_encode (es : List Entry)
    (hwf : ∀ e ∈ es, e.type < 256 ∧ e.data.length + 1 < 2 ^ 32) :
    decodeEntries es.length ((es.map encodeEntry).flatten) = some es := by
  induction es with
  | nil => rfl
  | cons e es ih =>
      obtain ⟨ht, hd⟩ := hwf e (List.mem_cons_self e es)
      have hflat : ((e :: es).map encodeEntry).flatten
          = encodeEntry e ++ (es.map encodeEntry).flatten := by simp
      rw [hflat, List.length_cons, decodeEntries_step _ e _ ht hd,
        ih (fun x hx => hwf x (List.mem_cons_of_mem e hx))]
      rfl

theorem decodeAppendEntry_encode (ae : AppendEntry)
    (hl : ae.leader.length = idLen) (ht : ae.term < 2 ^ 64) (hc : ae.commit < 2 ^ 64)
    (hp : ae.pterm < 2 ^ 64) (hpi : ae.pindex < 2 ^ 64)
    (hn : ae.entries.length < 2 ^ 16)
    (hes : ∀ e ∈ ae.entries, e.type < 256 ∧ e.data.length + 1 < 2 ^ 32) :
    decodeAppendEntry ae.encode = DecodeAE.ok ae := by
  have hl8 : ae.leader.length = 8 := hl
  have hmsg : ae.encode = ae.leader ++ (putBytes 8 ae.term ++ (putBytes 8 ae.commit ++
      (putBytes 8 ae.pterm ++ (putBytes 8 ae.pindex ++
        (putBytes 2 ae.entries.length ++ (ae.entries.map encodeEntry).flatten))))) := by
    simp [AppendEntry.encode, padTo_self idLen ae.leader hl, List.append_assoc]
  have d8 : ae.encode.drop 8 = putBytes 8 ae.term ++ (putBytes 8 ae.commit ++
      (putBytes 8 ae.pterm ++ (putBytes 8 ae.pindex ++
        (putBytes 2 ae.entries.length ++ (ae.entries.map encodeEntry).flatten)))) := by
    rw [hmsg]; exact drop_peel _ hl8
  have d16 : ae.encode.drop 16 = putBytes 8 ae.commit ++
      (putBytes 8 ae.pterm ++ (putBytes 8 ae.pindex ++
        (putBytes 2 ae.entries.length ++ (ae.entries.map encodeEntry).flatten))) := by
    rw [show (16 : Nat) = 8 + 8 from rfl, ← List.drop_drop, d8]
    exact drop_peel _ (putBytes_length 8 _)
  have d24 : ae.encode.drop 24 = putBytes 8 ae.pterm ++ (putBytes 8 ae.pindex ++
      (putBytes 2 ae.entries.length ++ (ae.entries.map encodeEntry).flatten)) := by
    rw [show (24 : Nat) = 16 + 8 from rfl, ← List.drop_drop, d16]
    exact drop_peel _ (putBytes_length 8 _)
  have d32 : ae.encode.drop 32 = putBytes 8 ae.pindex ++
      (putBytes 2 ae.entries.length ++ (ae.entries.map encodeEntry).flatten) := by
    rw [show (32 : Nat) = 24 + 8 from rfl, ← List.drop_drop, d24]
    exact drop_peel _ (putBytes_length 8 _)
  have d40 : ae.encode.drop 40 =
      putBytes 2 ae.entries.length ++ (ae.entries.map encodeEntry).flatten := by
    rw [show (40 : Nat) = 32 + 8 from rfl, ← List.drop_drop, d32]
    exact drop_peel _ (putBytes_length 8 _)
  have d42 : ae.encode.drop 42 = (ae.entries.map encodeEntry).flatten := by
    rw [show (42 : Nat) = 40 + 2 from rfl, ← List.drop_drop, d40]
    exact drop_peel _ (putBytes_length 2 _)
  have hterm : getBytes 8 (ae.encode.drop 8) = ae.term := by
    rw [d8]; exact getBytes_putBytes 8 _ ht _
  have hcommit : getBytes 8 (ae.encode.drop 16) = ae.commit := by
    rw [d16]; exact getBytes_putBytes 8 _ hc _
  have hpterm : getBytes 8 (ae.encode.drop 24) = ae.pterm := by
    rw [d24]; exact getBytes_putBytes 8 _ hp _
  have hpindex : getBytes 8 (ae.encode.drop 32) = ae.pindex := by
    rw [d32]; exact getBytes_putBytes 8 _ hpi _
  have hcount : getBytes 2 (ae.encode.drop 40) = ae.entries.length := by
    rw [d40]; exact getBytes_putBytes 2 _ hn _
  have htake : ae.encode.take idLen = ae.leader := by
    rw [hmsg]; exact take_peel _ hl8
  have hents : decodeEntries (getBytes 2 (ae.encode.drop 40)) (ae.encode.drop 42)
      = some ae.entries := by
    rw [hcount, d42]; exact decodeEntries_encode _ hes
  have hlen : ¬(ae.encode.length < appendEntryBaseLen) := by
    rw [hmsg]
    simp [appendEntryBaseLen, idLen, putBytes_length, hl8]
    omega
  rw [decodeAppendEntry, if_neg hlen, hents]
  show DecodeAE.ok
      { leader := ae.encode.take idLen, term := getBytes 8 (ae.encode.drop 8),
        commit := getBytes 8 (ae.encode.drop 16), pterm := getBytes 8 (ae.encode.drop 24),
        pindex := getBytes 8 (ae.encode.drop 32), entries := ae.entries }
      = DecodeAE.ok ae
  rw [htake, hterm, hcommit, hpterm, hpindex]

theorem decodeAppendEntryResponse_encode (ar : AppendEntryResponse)
    (hl : ar.peer.length = idLen) (ht : ar.term < 2 ^ 64) (hi : ar.index < 2 ^ 64) :
    decodeAppendEntryResponse ar.encode = some ar := by
  have hl8 : ar.peer.length = 8 := hl
  have hmsg : ar.encode = putBytes 8 ar.term ++
      (putBytes 8 ar.index ++ (ar.peer ++ [if ar.success then 1 else 0])) := by
    simp [AppendEntryResponse.encode, padTo_self idLen ar.peer hl, List.append_assoc]
  have hmsg2 : ar.encode =
      (putBytes 8 ar.term ++ putBytes 8 ar.index ++ ar.peer) ++
        [if ar.success then 1 else 0] := by
    rw [hmsg]; simp [List.append_assoc]
  have d8 : ar.encode.drop 8 =
      putBytes 8 ar.index ++ (ar.peer ++ [if ar.success then 1 else 0]) := by
    rw [hmsg]; exact drop_peel _ (putBytes_length 8 _)
  have d16 : ar.encode.drop 16 = ar.peer ++ [if ar.success then 1 else 0] := by
    rw [show (16 : Nat) = 8 + 8 from rfl, ← List.drop_drop, d8]
    exact drop_peel _ (putBytes_length 8 _)
  have hterm : getBytes 8 ar.encode = ar.term := by
    rw [hmsg]; exact getBytes_putBytes 8 _ ht _
  have hindex : getBytes 8 (ar.encode.drop 8) = ar.index := by
    rw [d8]; exact getBytes_putBytes 8 _ hi _
  have hpeer : (ar.encode.drop 16).take idLen = ar.peer := by
    rw [d16]; exact take_peel _ hl8
  have hgd : ar.encode.getD 24 0 = if ar.success then 1 else 0 := by
    rw [hmsg2]
    exact getD_peel _ (by simp [putBytes_length, hl8])
  have hsucc : (decide (ar.encode.getD 24 0 = 1) : Bool) = ar.success := by
    simp only [hgd]; cases ar.success <;> simp
  have hlen : ar.encode.length = appendEntryResponseLen := by
    rw [hmsg]; simp [appendEntryResponseLen, putBytes_length, hl8]
  rw [decodeAppendEntryResponse, if_neg (not_not_intro hlen)]
  rw [hterm, hindex, hpeer, hsucc]

theorem decodeVoteRequest_encode (vq : VoteRequest)
    (hl : vq.candidate.length = idLen) (ht : vq.term < 2 ^ 64)
    (hlt : vq.lastTerm < 2 ^ 64) (hli : vq.lastIndex < 2 ^ 64) :
    decodeVoteRequest vq.encode = some vq := by
  have hl8 : vq.candidate.length = 8 := hl
  have hmsg : vq.encode = putBytes 8 vq.term ++
      (putBytes 8 vq.lastTerm ++ (putBytes 8 vq.lastIndex ++ vq.candidate)) := by
    simp [VoteRequest.encode, padTo_self idLen vq.candidate hl, List.append_assoc]
  have d8 : vq.encode.drop 8 =
      putBytes 8 vq.lastTerm ++ (putBytes 8 vq.lastIndex ++ vq.candidate) := by
    rw [hmsg]; exact drop_peel _ (putBytes_length 8 _)
  have d16 : vq.encode.drop 16 = putBytes 8 vq.lastIndex ++ vq.candidate := by
    rw [show (16 : Nat) = 8 + 8 from rfl, ← List.drop_drop, d8]
    exact drop_peel _ (putBytes_length 8 _)
  have d24 : vq.encode.drop 24 = vq.candidate := by
    rw [show (24 : Nat) = 16 + 8 from rfl, ← List.drop_drop, d16]
    exact drop_peel _ (putBytes_length 8 _)
  have hterm : getBytes 8 vq.encode = vq.term := by
    rw [hmsg]; exact getBytes_putBytes 8 _ ht _
  have hlterm : getBytes 8 (vq.encode.drop 8) = vq.lastTerm := by
    rw [d8]; exact getBytes_putBytes 8 _ hlt _
  have hlindex : getBytes 8 (vq.encode.drop 16) = vq.lastIndex := by
    rw [d16]; exact getBytes_putBytes 8 _ hli _
  have hcand : (vq.encode.drop 24).take idLen = vq.candidate := by
    rw [d24, List.take_of_length_le (le_of_eq hl)]
  have hlen : vq.encode.length = voteRequestLen := by
    rw [hmsg]; simp [voteRequestLen, idLen, putBytes_length, hl8]
  rw [decodeVoteRequest, if_neg (not_not_intro hlen)]
  rw [hterm, hlterm, hlindex, hcand]

theorem decodeVoteResponse_encode (vr : VoteResponse)
    (hl : vr.peer.length = idLen) (ht : vr.term < 2 ^ 64) :
    decodeVoteResponse vr.encode = some vr := by
  have hl8 : vr.peer.length = 8 := hl
  have hmsg : vr.encode = putBytes 8 vr.term ++
      (vr.peer ++ [if vr.granted then 1 else 0]) := by
    simp [VoteResponse.encode, padTo_self idLen vr.peer hl, List.append_assoc]
  have hmsg2 : vr.encode =
      (putBytes 8 vr.term ++ vr.peer) ++ [if vr.granted then 1 else 0] := by
    rw [hmsg]; simp [List.append_assoc]
  have d8 : vr.encode.drop 8 = vr.peer ++ [if vr.granted then 1 else 0] := by
    rw [hmsg]; exact drop_peel _ (putBytes_length 8 _)
  have hterm : getBytes 8 vr.encode = vr.term := by
    rw [hmsg]; exact getBytes_putBytes 8 _ ht _
  have hpeer : (vr.encode.drop 8).take idLen = vr.peer := by
    rw [d8]; exact take_peel _ hl8
  have hgd : vr.encode.getD 16 0 = if vr.granted then 1 else 0 := by
    rw [hmsg2]
    exact getD_peel _ (by simp [putBytes_length, hl8])
  have hgrant : (decide (vr.encode.getD 16 0 = 1) : Bool) = vr.granted := by
    simp only [hgd]; cases vr.granted <;> simp
  have hlen : vr.encode.length = voteResponseLen := by
    rw [hmsg]; simp [voteResponseLen, putBytes_length, hl8]
  rw [decodeVoteResponse, if_neg (not_not_intro hlen)]
  rw [hterm, hpeer, hgrant]

theorem readPeers_encode (ids : List ID) (h : ∀ p ∈ ids, p.length = idLen) :
    readPeers ids.length ((ids.map (padTo idLen)).flatten) = ids := by
  induction ids with
  | nil => rfl
  | cons p ids ih =>
      have hp : p.length = idLen := h p (List.mem_cons_self p ids)
      have hflat : ((p :: ids).map (padTo idLen)).flatten
          = p ++ (ids.map (padTo idLen)).flatten := by
        simp [padTo_self idLen p hp]
      rw [List.length_cons, hflat]
      rw [readPeers]
      rw [if_neg (by simp [hp, idLen])]
      rw [take_peel _ hp, drop_peel _ hp,
        ih (fun x hx => h x (List.mem_cons_of_mem p hx))]

theorem decodePeerState_encode (ps : PeerStateRec)
    (hp : ∀ p ∈ ps.knownPeers, p.length = idLen)
    (hc : ps.clusterSize < 2 ^ 32) (hn : ps.knownPeers.length < 2 ^ 32) :
    decodePeerState (encodePeerState ps) = some ps := by
  have hmsg : encodePeerState ps = putBytes 4 ps.clusterSize ++
      (putBytes 4 ps.knownPeers.length ++ (ps.knownPeers.map (padTo idLen)).flatten) := by
    simp [encodePeerState, List.append_assoc]
  have d4 : (encodePeerState ps).drop 4 =
      putBytes 4 ps.knownPeers.length ++ (ps.knownPeers.map (padTo idLen)).flatten := by
    rw [hmsg]; exact drop_peel _ (putBytes_length 4 _)
  have d8 : (encodePeerState ps).drop 8 = (ps.knownPeers.map (padTo idLen)).flatten := by
    rw [show (8 : Nat) = 4 + 4 from rfl, ← List.drop_drop, d4]
    exact drop_peel _ (putBytes_length 4 _)
  have hcsz : getBytes 4 (encodePeerState ps) = ps.clusterSize := by
    rw [hmsg]; exact getBytes_putBytes 4 _ hc _
  have hcnt : getBytes 4 ((encodePeerState ps).drop 4) = ps.knownPeers.length := by
    rw [d4]; exact getBytes_putBytes 4 _ hn _
  have hlen : ¬((encodePeerState ps).length < 8) := by
    rw [hmsg]; simp [putBytes_length]; omega
  rw [decodePeerState, if_neg hlen]
  simp only [hcsz, hcnt, d8, readPeers_encode ps.knownPeers hp]
  rw [if_neg (by simp)]

theorem applyCommitPre_commit (n : RaftNode) (i : Nat) :
    (applyCommitPre n i).commit = i := by
  unfold applyCommitPre; split <;> rfl

theorem applyCommitPre_applyc (n : RaftNode) (i : Nat) :
    (applyCommitPre n i).applyc = n.applyc := by
  unfold applyCommitPre; split <;> rfl

theorem applyCommitPre_applycCap (n : RaftNode) (i : Nat) :
    (applyCommitPre n i).applycCap = n.applycCap := by
  unfold applyCommitPre; split <;> rfl

theorem applyEntryStep_preserve (now : Int) (e : Entry) (m : RaftNode) (a : List Entry) :
    (applyEntryStep now (m, a) e).1.commit = m.commit ∧
    (applyEntryStep now (m, a) e).1.applyc = m.applyc ∧
    (applyEntryStep now (m, a) e).1.applycCap = m.applycCap := by
  unfold applyEntryStep applyAddPeer processPeerState
  split
  · exact ⟨rfl, rfl, rfl⟩
  · split
    · split <;> exact ⟨rfl, rfl, rfl⟩
    · split
      · split <;> exact ⟨rfl, rfl, rfl⟩
      · exact ⟨rfl, rfl, rfl⟩

theorem applyEntryFold_preserve (now : Int) (es : List Entry) :
    ∀ (m : RaftNode) (a : List Entry),
      (es.foldl (applyEntryStep now) (m, a)).1.commit = m.commit ∧
      (es.foldl (applyEntryStep now) (m, a)).1.applyc = m.applyc ∧
      (es.foldl (applyEntryStep now) (m, a)).1.applycCap = m.applycCap := by
  induction es with
  | nil => intro m a; exact ⟨rfl, rfl, rfl⟩
  | cons e es ih =>
      intro m a
      have h1 := applyEntryStep_preserve now e m a
      have h2 := ih (applyEntryStep now (m, a) e).1 (applyEntryStep now (m, a) e).2
      exact ⟨h2.1.trans h1.1, h2.2.1.trans h1.2.1, h2.2.2.trans h1.2.2⟩

theorem applyEntryFold_user (now : Int) (es : List Entry) :
    ∀ (m : RaftNode) (a : List Entry),
      (es.foldl (applyEntryStep now) (m, a)).2 = a ++ es.filter isUserEntry := by
  induction es with
  | nil => intro m a; simp
  | cons e es ih =>
      intro m a
      by_cases he : isUserEntry e
      · have hstep : applyEntryStep now (m, a) e = (m, a ++ [e]) := by
          unfold applyEntryStep; rw [if_pos he]
        rw [List.foldl_cons, hstep, ih, List.filter_cons_of_pos he]
        simp
      · have hstep2 : (applyEntryStep now (m, a) e).2 = a := by
          unfold applyEntryStep; rw [if_neg he]
          split
          · split <;> rfl
          · split
            · rfl
            · rfl
        rw [List.foldl_cons, List.filter_cons_of_neg he]
        conv_rhs => rw [← hstep2]
        exact ih (applyEntryStep now (m, a) e).1 (applyEntryStep now (m, a) e).2

theorem applyCommit_inline (wal : Wal) (now : Int) (n : RaftNode) (i : Nat)
    (ae : AppendEntry) (h1 : n.commit < i) (h2 : wal i = some ae)
    (h3 : ae.entries.filter isUserEntry = []) :
    ∃ n', applyCommit wal now n i = (n', none) ∧ n'.commit = i ∧
      n'.applyc = n.applyc ∧ n'.applycCap = n.applycCap := by
  have hu := applyEntryFold_user now ae.entries (applyCommitPre n i) []
  rw [h3, List.nil_append] at hu
  have hp := applyEntryFold_preserve now ae.entries (applyCommitPre n i) []
  unfold applyCommit
  rw [if_neg (by omega), h2]
  simp only [hu]
  rw [if_neg (by simp)]
  exact ⟨_, rfl, hp.1.trans (applyCommitPre_commit n i),
    hp.2.1.trans (applyCommitPre_applyc n i),
    hp.2.2.trans (applyCommitPre_applycCap n i)⟩

theorem applyCommit_deliver (wal : Wal) (now : Int) (n : RaftNode) (i : Nat)
    (ae : AppendEntry) (h1 : n.commit < i) (h2 : wal i = some ae)
    (h3 : ae.entries.filter isUserEntry ≠ []) (h4 : n.applyc.length < n.applycCap) :
    ∃ n', applyCommit wal now n i = (n', none) ∧ n'.commit = i ∧
      n'.applyc = n.applyc ++ [⟨i, ae.entries.filter isUserEntry⟩] ∧
      n'.applycCap = n.applycCap := by
  have hu := applyEntryFold_user now ae.entries (applyCommitPre n i) []
  rw [List.nil_append] at hu
  have hp := applyEntryFold_preserve now ae.entries (applyCommitPre n i) []
  have hlen : (ae.entries.foldl (applyEntryStep now) (applyCommitPre n i, [])).1.applyc.length
      < (ae.entries.foldl (applyEntryStep now) (applyCommitPre n i, [])).1.applycCap := by
    rw [hp.2.1, hp.2.2, applyCommitPre_applyc, applyCommitPre_applycCap]
    exact h4
  unfold applyCommit
  rw [if_neg (by omega), h2]
  simp only [hu]
  rw [if_pos h3, if_pos hlen]
  refine ⟨_, rfl, ?_, ?_, ?_⟩
  · exact hp.1.trans (applyCommitPre_commit n i)
  · rw [hp.2.1, applyCommitPre_applyc]
  · exact hp.2.2.trans (applyCommitPre_applycCap n i)

theorem applyLoop_inline (wal : Wal) (now : Int) :
    ∀ (fuel : Nat) (n : RaftNode) (lo : Nat),
      n.commit + 1 = lo →
      (∀ i, lo ≤ i → i < lo + fuel →
        ∃ ae, wal i = some ae ∧ ae.entries.filter isUserEntry = []) →
      (applyLoop wal now fuel lo n).commit = n.commit + fuel := by
  intro fuel
  induction fuel with
  | zero => intro n lo hlo hw; simp [applyLoop]
  | succ fuel ih =>
      intro n lo hlo hw
      obtain ⟨ae, hwal, hf⟩ := hw lo (le_refl lo) (by omega)
      obtain ⟨n', heq, hc, _, _⟩ :=
        applyCommit_inline wal now n lo ae (by omega) hwal hf
      rw [applyLoop, heq]
      show (applyLoop wal now fuel (lo + 1) n').commit = n.commit + (fuel + 1)
      have := ih n' (lo + 1) (by omega)
        (fun i hi1 hi2 => hw i (by omega) (by omega))
      omega

theorem applyLoop_deliver (wal : Wal) (now : Int) (w : Nat → AppendEntry) :
    ∀ (fuel : Nat) (n : RaftNode) (lo : Nat),
      n.commit + 1 = lo →
      (∀ i, lo ≤ i → i < lo + fuel →
        wal i = some (w i) ∧ (w i).entries.filter isUserEntry ≠ []) →
      n.applyc.length + fuel ≤ n.applycCap →
      (applyLoop wal now fuel lo n).commit = n.commit + fuel ∧
      (applyLoop wal now fuel lo n).applyc = n.applyc ++
        (List.range fuel).map
          (fun k => ⟨lo + k, (w (lo + k)).entries.filter isUserEntry⟩) := by
  intro fuel
  induction fuel with
  | zero => intro n lo hlo hw hcap; simp [applyLoop]
  | succ fuel ih =>
      intro n lo hlo hw hcap
      obtain ⟨hwal, hf⟩ := hw lo (le_refl lo) (by omega)
      obtain ⟨n', heq, hc, ha, hcapeq⟩ :=
        applyCommit_deliver wal now n lo (w lo) (by omega) hwal hf (by omega)
      rw [applyLoop, heq]
      show (applyLoop wal now fuel (lo + 1) n').commit = n.commit + (fuel + 1) ∧
        (applyLoop wal now fuel (lo + 1) n').applyc = n.applyc ++
          (List.range (fuel + 1)).map
            (fun k => ⟨lo + k, (w (lo + k)).entries.filter isUserEntry⟩)
      have hlen' : n'.applyc.length + fuel ≤ n'.applycCap := by
        rw [ha, hcapeq, List.length_append]
        simp
        omega
      obtain ⟨ihc, iha⟩ := ih n' (lo + 1) (by omega)
        (fun i hi1 hi2 => hw i (by omega) (by omega)) hlen'
      constructor
      · omega
      · rw [iha, ha]
        have hmap : (List.range (fuel + 1)).map
            (fun k => (⟨lo + k, (w (lo + k)).entries.filter isUserEntry⟩ : CommittedEntry))
            = (⟨lo, (w lo).entries.filter isUserEntry⟩ : CommittedEntry) ::
              (List.range fuel).map
                (fun k => ⟨lo + 1 + k, (w (lo + 1 + k)).entries.filter isUserEntry⟩) := by
          rw [List.range_succ_eq_map, List.map_cons, List.map_map]
          congr 1
          apply List.map_congr_left
          intro a _
          have hk : lo + (a + 1) = lo + 1 + a := by omega
          show (⟨lo + (a + 1), (w (lo + (a + 1))).entries.filter isUserEntry⟩ :
              CommittedEntry) = _
          rw [hk]
        rw [hmap]
        simp

theorem acks_update_commit (m : RaftNode) (x : List (Nat × List ID)) :
    ({ m with acks := x } : RaftNode).commit = m.commit := rfl

theorem acks_update_qn (m : RaftNode) (x : List (Nat × List ID)) :
    ({ m with acks := x } : RaftNode).qn = m.qn := rfl

theorem acks_update_applyc (m : RaftNode) (x : List (Nat × List ID)) :
    ({ m with acks := x } : RaftNode).applyc = m.applyc := rfl

theorem trackResponsePeer_preserve (n : RaftNode) (ar : AppendEntryResponse) :
    (trackResponsePeer n ar).commit = n.commit ∧
    (trackResponsePeer n ar).acks = n.acks ∧
    (trackResponsePeer n ar).qn = n.qn ∧
    (trackResponsePeer n ar).applyc = n.applyc ∧
    (trackResponsePeer n ar).applycCap = n.applycCap := by
  unfold trackResponsePeer
  split
  · split <;> exact ⟨rfl, rfl, rfl, rfl, rfl⟩
  · exact ⟨rfl, rfl, rfl, rfl, rfl⟩

theorem trackResponseProgress_preserve (n : RaftNode) (ar : AppendEntryResponse) :
    (trackResponseProgress n ar).commit = n.commit ∧
    (trackResponseProgress n ar).acks = n.acks ∧
    (trackResponseProgress n ar).qn = n.qn ∧
    (trackResponseProgress n ar).applyc = n.applyc ∧
    (trackResponseProgress n ar).applycCap = n.applycCap := by
  unfold trackResponseProgress
  split
  · exact ⟨rfl, rfl, rfl, rfl, rfl⟩
  · exact ⟨rfl, rfl, rfl, rfl, rfl⟩

theorem trackResponseAck_commit (wal : Wal) (now : Int) (m : RaftNode)
    (ar : AppendEntryResponse) (results : List ID)
    (hc : m.commit < ar.index)
    (hq : (if ar.peer ∈ results then results else ar.peer :: results).length ≥ m.qn)
    (hwal : ∀ i, m.commit < i → i ≤ ar.index →
      ∃ ae, wal i = some ae ∧ ae.entries.filter isUserEntry = []) :
    (trackResponseAck wal now m ar results).commit = ar.index := by
  unfold trackResponseAck
  rw [if_pos hq]
  simp only [acks_update_commit]
  refine Eq.trans (applyLoop_inline wal now (ar.index - m.commit) _ (m.commit + 1) ?_ ?_) ?_
  · rfl
  · exact fun i hi1 hi2 => hwal i (by omega) (by omega)
  · show m.commit + (ar.index - m.commit) = ar.index
    omega

theorem trackResponseAck_deliver (wal : Wal) (now : Int) (m : RaftNode)
    (ar : AppendEntryResponse) (results : List ID) (w : Nat → AppendEntry)
    (hc : m.commit < ar.index)
    (hq : (if ar.peer ∈ results then results else ar.peer :: results).length ≥ m.qn)
    (hwal : ∀ i, m.commit < i → i ≤ ar.index →
      wal i = some (w i) ∧ (w i).entries.filter isUserEntry ≠ [])
    (hcap : m.applyc.length + (ar.index - m.commit) ≤ m.applycCap) :
    (trackResponseAck wal now m ar results).applyc = m.applyc ++
      (List.range (ar.index - m.commit)).map
        (fun k => ⟨m.commit + 1 + k, (w (m.commit + 1 + k)).entries.filter isUserEntry⟩) := by
  unfold trackResponseAck
  rw [if_pos hq]
  simp only [acks_update_commit]
  refine Eq.trans
    ((applyLoop_deliver wal now w (ar.index - m.commit) _ (m.commit + 1) ?_ ?_ ?_).2) ?_
  · rfl
  · exact fun i hi1 hi2 => hwal i (by omega) (by omega)
  · exact hcap
  · rfl

/-- C1 (amended): on the leader, `trackResponse` advances `commit`
purely by ack counting, with no comparison of the stored entry's term
against `currentTerm`: whenever the acked index exceeds `commit`, its
ack set exists and reaches quorum with this ack, and each index up to
it loads an entry that applies inline, `commit` advances all the way
to the acked index — the hypotheses place no condition whatsoever on
the terms of the stored entries (raft.go:1484-1492). -/
theorem c1_quorum_commits_without_term_check (wal : Wal) (now : Int) (n : RaftNode)
    (ar : AppendEntryResponse) (results : List ID)
    (hc : n.commit < ar.index)
    (hacks : alookup ar.index n.acks = some results)
    (hq : (if ar.peer ∈ results then results else ar.peer :: results).length ≥ n.qn)
    (hwal : ∀ i, n.commit < i → i ≤ ar.index →
      ∃ ae, wal i = some ae ∧ ae.entries.filter isUserEntry = []) :
    (trackResponse wal now n ar).commit = ar.index := by
  have hp1 := trackResponsePeer_preserve n ar
  have hp2 := trackResponseProgress_preserve (trackResponsePeer n ar) ar
  have hmc : (trackResponseProgress (trackResponsePeer n ar) ar).commit = n.commit :=
    hp2.1.trans hp1.1
  have hma : (trackResponseProgress (trackResponsePeer n ar) ar).acks = n.acks :=
    hp2.2.1.trans hp1.2.1
  have hmq : (trackResponseProgress (trackResponsePeer n ar) ar).qn = n.qn :=
    hp2.2.2.1.trans hp1.2.2.1
  simp only [trackResponse]
  rw [if_neg (by omega), hma, hacks]
  show (trackResponseAck wal now
      (trackResponseProgress (trackResponsePeer n ar) ar) ar results).commit = ar.index
  exact trackResponseAck_commit wal now _ ar results (by omega)
    (by rw [hmq]; exact hq)
    (fun i h1 h2 => hwal i (by omega) h2)

/-- C4.  `applyCommit(i)` leaves `commit` unchanged on failure: for an
index not above `commit` it returns no error and changes nothing; for
an index above `commit`, a failed entry load or a full apply channel
(for a batch carrying `Normal`/`Snapshot` entries) yields the
corresponding error with `commit` equal to its value before the call
(raft.go:1393-1452). -/
theorem c4_applyCommit_failure_frame (wal : Wal) (now : Int) (n : RaftNode) (i : Nat) :
    (i ≤ n.commit → applyCommit wal now n i = (n, none)) ∧
    (n.commit < i → wal i = none →
      (applyCommit wal now n i).1.commit = n.commit ∧
      (applyCommit wal now n i).2 = some RErr.entryLoadFailed) ∧
    (∀ ae, n.commit < i → wal i = some ae →
      ae.entries.filter isUserEntry ≠ [] → n.applycCap ≤ n.applyc.length →
      (applyCommit wal now n i).1.commit = n.commit ∧
      (applyCommit wal now n i).2 = some RErr.failedToApply) := by
  refine ⟨?_, ?_, ?_⟩
  · intro h
    unfold applyCommit
    rw [if_pos h]
  · intro h hw
    unfold applyCommit
    rw [if_neg (by omega), hw]
    exact ⟨rfl, rfl⟩
  · intro ae h hw hu hcap
    have hufold := applyEntryFold_user now ae.entries (applyCommitPre n i) []
    rw [List.nil_append] at hufold
    have hp := applyEntryFold_preserve now ae.entries (applyCommitPre n i) []
    have hnl : ¬((ae.entries.foldl (applyEntryStep now) (applyCommitPre n i, [])).1.applyc.length <
        (ae.entries.foldl (applyEntryStep now) (applyCommitPre n i, [])).1.applycCap) := by
      rw [hp.2.1, hp.2.2, applyCommitPre_applyc, applyCommitPre_applycCap]
      omega
    unfold applyCommit
    rw [if_neg (by omega), hw]
    simp only [hufold]
    rw [if_pos hu, if_neg hnl]
    exact ⟨rfl, rfl⟩

/-- C10.  `Compact(i)` on a leader whose every other peer has
last-replicated index at least `i` returns `nil` without invoking
`WAL.Compact` and leaves the node unchanged; the WAL is only ever
compacted by `Compact` when the node is not the leader
(raft.go:552-567). -/
theorem c10_compact_leader_frame (n : RaftNode) (index : Nat) :
    (n.state = RState.Leader → (∀ p ∈ n.peers, p.1 ≠ n.id → index ≤ p.2.li) →
      Compact n index = (n, none, false)) ∧
    ((Compact n index).2.2 = true → ¬(n.state = RState.Leader)) := by
  constructor
  · intro hs hp
    have hany : ¬(n.peers.any (fun p => p.1 ≠ n.id ∧ p.2.li < index) = true) := by
      intro hcon
      obtain ⟨p, hmem, hcond⟩ := List.any_eq_true.mp hcon
      have hc := of_decide_eq_true hcond
      have h1 := hp p hmem hc.1
      have h2 := hc.2
      omega
    rw [Compact, if_neg (not_not_intro hs), if_neg hany]
  · intro h hs
    rw [Compact, if_neg (not_not_intro hs)] at h
    split at h <;> simp at h

theorem trackPeer_preserve (now : Int) (n : RaftNode) (peer : ID) :
    (trackPeer now n peer).1.term = n.term ∧
    (trackPeer now n peer).1.state = n.state ∧
    (trackPeer now n peer).1.qn = n.qn := by
  unfold trackPeer
  split
  · exact ⟨rfl, rfl, rfl⟩
  · split <;> exact ⟨rfl, rfl, rfl⟩

/-- C6 (amended): in `runAsCandidate` the tally starts at the
self-vote 1; a vote response increments the tally exactly when it is
granted and carries a term at most (not exactly equal to) the current
term; the node switches to leader exactly when the incremented tally
reaches quorum; and otherwise — in particular for any response with a
term higher than the candidate's — the node's role is unchanged, with
no step-down (raft.go:1543-1565, 2176-2178). -/
theorem c6_candidate_tally_rule (now : Int) (n : RaftNode) (votes : Nat)
    (vresp : VoteResponse) :
    runAsCandidateTally now n [] = (n, 1, false) ∧
    (candidateVoteStep now n votes vresp).2.1 =
      (if vresp.granted = true ∧ vresp.term ≤ n.term then votes + 1 else votes) ∧
    ((candidateVoteStep now n votes vresp).2.2 = true ↔
      (vresp.granted = true ∧ vresp.term ≤ n.term ∧ n.qn ≤ votes + 1)) ∧
    ((candidateVoteStep now n votes vresp).2.2 = true →
      (candidateVoteStep now n votes vresp).1.state = RState.Leader) ∧
    ((candidateVoteStep now n votes vresp).2.2 = false →
      (candidateVoteStep now n votes vresp).1.state = n.state) := by
  obtain ⟨ht1, ht2, ht3⟩ := trackPeer_preserve now n vresp.peer
  refine ⟨rfl, ?_, ?_, ?_, ?_⟩ <;>
    · simp only [candidateVoteStep, wonElection, switchToLeader, ht1, ht3]
      split_ifs with h1 h2 <;> simp_all

/-- C7 (amended): pause/resume works as claimed on the follower
append-entry path — while paused, a leader-authorized commit is parked
in `hcommit` with nothing delivered, and `ResumeApply` delivers
exactly the entries for `commit+1 .. hcommit` in order, with `commit`
reaching `hcommit` (raft.go:524-546, 1792-1803) — but the leader's own
ack-counting path is exempt: `trackResponse` never consults `paused`,
so a leader that reaches quorum while paused delivers the committed
entries to the apply channel immediately (raft.go:1484-1492). -/
theorem c7_pause_resume_follower_path (wal : Wal) (now : Int) (n : RaftNode)
    (w : Nat → AppendEntry) (aeCommit : Nat) (ar : AppendEntryResponse)
    (results : List ID) :
    (n.paused = true → n.commit < aeCommit →
      advanceCommitOnAppend wal now n aeCommit = { n with hcommit := aeCommit }) ∧
    (n.commit < n.hcommit →
      (∀ i, n.commit < i → i ≤ n.hcommit →
        wal i = some (w i) ∧ (w i).entries.filter isUserEntry ≠ []) →
      n.applyc.length + (n.hcommit - n.commit) ≤ n.applycCap →
      (ResumeApply wal now n).commit = n.hcommit ∧
      (ResumeApply wal now n).applyc = n.applyc ++
        (List.range (n.hcommit - n.commit)).map
          (fun k => ⟨n.commit + 1 + k, (w (n.commit + 1 + k)).entries.filter isUserEntry⟩) ∧
      (ResumeApply wal now n).paused = false ∧
      (ResumeApply wal now n).hcommit = 0) ∧
    (n.paused = true → n.commit < ar.index →
      alookup ar.index n.acks = some results →
      (if ar.peer ∈ results then results else ar.peer :: results).length ≥ n.qn →
      (∀ i, n.commit < i → i ≤ ar.index →
        wal i = some (w i) ∧ (w i).entries.filter isUserEntry ≠ []) →
      n.applyc.length + (ar.index - n.commit) ≤ n.applycCap →
      (trackResponse wal now n ar).applyc ≠ n.applyc) := by
  refine ⟨?_, ?_, ?_⟩
  · intro hp hcmt
    unfold advanceCommitOnAppend
    rw [if_pos (by omega), if_pos hp]
  · intro hcmt hw hcap
    have hd := applyLoop_deliver wal now w (n.hcommit - n.commit) n (n.commit + 1) rfl
      (fun i h1 h2 => hw i (by omega) (by omega)) hcap
    simp only [ResumeApply]
    rw [if_pos (by omega)]
    refine ⟨?_, ?_, ?_, ?_⟩
    · show (applyLoop wal now (n.hcommit - n.commit) (n.commit + 1) n).commit = n.hcommit
      omega
    · exact hd.2
    · trivial
    · trivial
  · intro hp hcmt hacks hq hw hcap
    have hp1 := trackResponsePeer_preserve n ar
    have hp2 := trackResponseProgress_preserve (trackResponsePeer n ar) ar
    have hmc : (trackResponseProgress (trackResponsePeer n ar) ar).commit = n.commit :=
      hp2.1.trans hp1.1
    have hma : (trackResponseProgress (trackResponsePeer n ar) ar).acks = n.acks :=
      hp2.2.1.trans hp1.2.1
    have hmq : (trackResponseProgress (trackResponsePeer n ar) ar).qn = n.qn :=
      hp2.2.2.1.trans hp1.2.2.1
    have hmapp : (trackResponseProgress (trackResponsePeer n ar) ar).applyc = n.applyc :=
      hp2.2.2.2.1.trans hp1.2.2.2.1
    have hmcap : (trackResponseProgress (trackResponsePeer n ar) ar).applycCap
        = n.applycCap := hp2.2.2.2.2.trans hp1.2.2.2.2
    have heq : (trackResponse wal now n ar).applyc =
        (trackResponseProgress (trackResponsePeer n ar) ar).applyc ++
          (List.range (ar.index - (trackResponseProgress (trackResponsePeer n ar) ar).commit)).map
            (fun k => ⟨(trackResponseProgress (trackResponsePeer n ar) ar).commit + 1 + k,
              (w ((trackResponseProgress (trackResponsePeer n ar) ar).commit + 1 + k)).entries.filter
                isUserEntry⟩) := by
      simp only [trackResponse]
      rw [if_neg (by omega), hma, hacks]
      show (trackResponseAck wal now
          (trackResponseProgress (trackResponsePeer n ar) ar) ar results).applyc = _
      exact trackResponseAck_deliver wal now _ ar results w (by omega)
        (by rw [hmq]; exact hq)
        (fun i h1 h2 => hw i (by omega) h2)
        (by rw [hmapp, hmcap, hmc]; exact hcap)
    rw [hmc, hmapp] at heq
    intro habs
    rw [habs] at heq
    have hlen := congrArg List.length heq
    simp only [List.length_append, List.length_map, List.length_range] at hlen
    omega

/-- C8.  For each of the five wire formats, decode is a left inverse
of encode: for every value within the declared bounds (ids exactly
`idLen = 8` bytes, u64/u32/u16 fields within range, each entry's
`length + 1` within u32), decoding the encoded bytes yields the
original value (raft.go:1019-1070, 1086-1113, 1956-1982, 2052-2073,
1889-1918). -/
theorem c8_decode_encode_identity (ae : AppendEntry) (ar : AppendEntryResponse)
    (vq : VoteRequest) (vr : VoteResponse) (ps : PeerStateRec)
    (hae : ae.leader.length = idLen ∧ ae.term < 2 ^ 64 ∧ ae.commit < 2 ^ 64 ∧
      ae.pterm < 2 ^ 64 ∧ ae.pindex < 2 ^ 64 ∧ ae.entries.length < 2 ^ 16 ∧
      ∀ e ∈ ae.entries, e.type < 256 ∧ e.data.length + 1 < 2 ^ 32)
    (har : ar.peer.length = idLen ∧ ar.term < 2 ^ 64 ∧ ar.index < 2 ^ 64)
    (hvq : vq.candidate.length = idLen ∧ vq.term < 2 ^ 64 ∧
      vq.lastTerm < 2 ^ 64 ∧ vq.lastIndex < 2 ^ 64)
    (hvr : vr.peer.length = idLen ∧ vr.term < 2 ^ 64)
    (hps : (∀ p ∈ ps.knownPeers, p.length = idLen) ∧
      ps.clusterSize < 2 ^ 32 ∧ ps.knownPeers.length < 2 ^ 32) :
    decodeAppendEntry ae.encode = DecodeAE.ok ae ∧
    decodeAppendEntryResponse ar.encode = some ar ∧
    decodeVoteRequest vq.encode = some vq ∧
    decodeVoteResponse vr.encode = some vr ∧
    decodePeerState (encodePeerState ps) = some ps := by
  obtain ⟨l1, l2, l3, l4, l5, l6, l7⟩ := hae
  obtain ⟨r1, r2, r3⟩ := har
  obtain ⟨q1, q2, q3, q4⟩ := hvq
  obtain ⟨v1, v2⟩ := hvr
  obtain ⟨p1, p2, p3⟩ := hps
  exact ⟨decodeAppendEntry_encode ae l1 l2 l3 l4 l5 l6 l7,
    decodeAppendEntryResponse_encode ar r1 r2 r3,
    decodeVoteRequest_encode vq q1 q2 q3 q4,
    decodeVoteResponse_encode vr v1 v2,
    decodePeerState_encode ps p1 p2 p3⟩

/-- C9.  The claim states every decoder either returns a well-formed
message or `nil`, never faulting on malformed input such as an
entry-count exceeding the actual message size.  The code is wrong: the
entry loop of `decodeAppendEntry` (raft.go:1059-1066) indexes the
message without bounds checks, so this 42-byte message with
entry-count 1 makes the Go code panic (slice out of range), modelled
as `DecodeAE.fault`. -/
theorem c9_decode_faults_on_bad_count :
    decodeAppendEntry c9BadMsg = DecodeAE.fault ∧
    c9BadMsg.length = appendEntryBaseLen := by decide

/-- C5.  The claim says a stored record with term > 0 initialises the
node's term/vote, and a stored cluster size < 2 refuses to start.  The
refusal holds, but raft.go:287 tests `err != nil && term > 0`, and
`readTermVote` only returns an error together with term 0, so the
stored term/vote is never adopted: with term 5 and a vote for A on
disk, the node starts at term 0 with no vote. -/
theorem c5_term_vote_not_restored :
    readTermVote (some tvFileStored) = ⟨5, idA, false⟩ ∧
    startRaftNodeInit (some psFileGood) (some tvFileStored) =
      some ⟨3, 2, 0, noVote⟩ ∧
    startRaftNodeInit (some (encodePeerState ⟨[idA], 1⟩)) (some tvFileStored) = none := by
  decide

/-- C3.  The claim says every membership apply leaves
`quorum = ⌊clusterSize/2⌋ + 1`.  The code is wrong for the `PeerState`
arm: `processPeerState` (raft.go:1813-1822) replaces `csz` but never
recomputes `qn` (unlike the `AddPeer` arm, raft.go:1428-1434), so
applying a `PeerState` entry that grows the cluster from 3 to 5 leaves
`qn = 2` where `⌊5/2⌋ + 1 = 3`. -/
theorem c3_peerstate_apply_skips_quorum :
    (applyCommit walC3 0 nC3 1).2 = none ∧
    (applyCommit walC3 0 nC3 1).1.csz = 5 ∧
    (applyCommit walC3 0 nC3 1).1.qn = 2 ∧
    ¬((applyCommit walC3 0 nC3 1).1.qn =
        (applyCommit walC3 0 nC3 1).1.csz / 2 + 1) := by decide

/-- C2.  The claim says a vote is granted only when
`vr.lastIndex ≥ pindex`, regardless of any earlier vote for the same
candidate.  The code is wrong: raft.go:2124 reads
`vr.lastIndex >= n.pindex && n.vote == noVote || n.vote == vr.candidate`
and Go's `&&` binds tighter than `||`, so a request from the candidate
we already voted for is granted even with `lastIndex < pindex`. -/
theorem c2_grants_despite_stale_log :
    vrC2.lastIndex < nC2.pindex ∧
    (processVoteRequest 0 nC2 vrC2).resp.granted = true ∧
    (processVoteRequest 0 nC2 vrC2).node.vote = idA := by decide

/-- C1 counterexample: `trackResponse` (raft.go:1455-1501) counts acks
and advances `commit` without ever comparing the stored entry's term
with `currentTerm`; here an entry from term 1 is committed by ack
counting while the leader's term is 2, which the claim forbids. -/
theorem c1_commits_old_term_entry :
    nC1.state = RState.Leader ∧ nC1.term = 2 ∧
    Option.map AppendEntry.term (walC1 1) = some 1 ∧
    (trackResponse walC1 0 nC1 arC1).commit = 1 := by decide

/-- C6 counterexample: in `runAsCandidate` (raft.go:1556-1565) a vote
response with a term higher than ours does not force a step-down (the
node stays Candidate; only its peer record is touched), and a granted
response with a stale term also increments the tally — the code counts
`granted && n.term >= vresp.term`, not term equality. -/
theorem c6_higher_term_ignored :
    vrespHigh.term > nC6.term ∧
    (candidateVoteStep 0 nC6 1 vrespHigh).1.state = RState.Candidate ∧
    (candidateVoteStep 0 nC6 1 vrespHigh).2.1 = 1 ∧
    vrespStale.term < nC6.term ∧
    (candidateVoteStep 0 nC6 1 vrespStale).2.1 = 2 := by decide

/-- C7 counterexample: the claim says a leader that commits while
paused emits no apply records until `ResumeApply`.  But the leader's
ack-counting path (`trackResponse` → `applyCommit`,
raft.go:1488-1492) never consults `paused`: a quorum ack while paused
immediately places the committed entry on the apply channel and leaves
`hcommit` unparked. -/
theorem c7_leader_ignores_pause :
    nC7.paused = true ∧
    (trackResponse walC7 0 nC7 arC1).commit = 1 ∧
    (trackResponse walC7 0 nC7 arC1).applyc =
      [⟨1, [⟨EntryNormal, [121]⟩]⟩] ∧
    (trackResponse walC7 0 nC7 arC1).hcommit = 0 := by decide

/-- Witness for C1's amended theorem at a concrete leader state. -/
theorem c1_witness :
    (trackResponse walW1 0 nW1 ⟨1, 1, idA, true⟩).commit = 1 :=
  c1_quorum_commits_without_term_check walW1 0 nW1 ⟨1, 1, idA, true⟩ [idL]
    (by decide) (by decide) (by decide)
    (fun i h1 h2 => by
      have h1x : 0 < i := h1
      have h2x : i ≤ 1 := h2
      have hi : i = 1 := by omega
      subst hi
      exact ⟨_, rfl, rfl⟩)

/-- Witness for C4 at concrete inputs: already-committed index,
load failure, and apply-channel overflow. -/
theorem c4_witness :
    applyCommit walW4none 0 n4a 1 = (n4a, none) ∧
    ((applyCommit walW4none 0 n4b 1).1.commit = n4b.commit ∧
      (applyCommit walW4none 0 n4b 1).2 = some RErr.entryLoadFailed) ∧
    ((applyCommit walW4full 0 n4c 1).1.commit = n4c.commit ∧
      (applyCommit walW4full 0 n4c 1).2 = some RErr.failedToApply) :=
  ⟨(c4_applyCommit_failure_frame walW4none 0 n4a 1).1 (by decide),
   (c4_applyCommit_failure_frame walW4none 0 n4b 1).2.1 (by decide) rfl,
   (c4_applyCommit_failure_frame walW4full 0 n4c 1).2.2 aeW4 (by decide) rfl
     (by decide) (by decide)⟩

/-- Witness for C6's amended theorem: a granted same-term response
brings the tally to quorum and the candidate becomes leader. -/
theorem c6_witness :
    (candidateVoteStep 0 nW6 1 ⟨3, idA, true⟩).2.2 = true :=
  (c6_candidate_tally_rule 0 nW6 1 ⟨3, idA, true⟩).2.2.1.mpr (by decide)

/-- Witness for C7's amended theorem: parking while paused, a resume
that reaches `hcommit`, and a paused leader that still delivers. -/
theorem c7_witness :
    advanceCommitOnAppend walW7 0 nW7p 2 = { nW7p with hcommit := 2 } ∧
    (ResumeApply walW7 0 nW7r).commit = 2 ∧
    (trackResponse walW7 0 nW7t ⟨1, 1, idA, true⟩).applyc ≠ nW7t.applyc := by
  have hw : ∀ i, (0 : Nat) < i → i ≤ 2 →
      walW7 i = some (wW7 i) ∧ (wW7 i).entries.filter isUserEntry ≠ [] := by
    intro i h1 h2
    have : i = 1 ∨ i = 2 := by omega
    rcases this with h | h <;> subst h <;> exact ⟨rfl, by decide⟩
  refine ⟨?_, ?_, ?_⟩
  · exact (c7_pause_resume_follower_path walW7 0 nW7p wW7 2 ⟨1, 1, idA, true⟩ []).1
      rfl (by decide)
  · exact ((c7_pause_resume_follower_path walW7 0 nW7r wW7 2 ⟨1, 1, idA, true⟩ []).2.1
      (by decide) hw (by decide)).1
  · exact (c7_pause_resume_follower_path walW7 0 nW7t wW7 2 ⟨1, 1, idA, true⟩ [idL]).2.2
      rfl (by decide) (by decide) (by decide)
      (fun i h1 h2 => hw i h1 (Nat.le_trans h2 (by decide))) (by decide)

/-- Witness for C8 at one concrete value per wire format. -/
theorem c8_witness :
    decodeAppendEntry aeW8.encode = DecodeAE.ok aeW8 ∧
    decodeAppendEntryResponse arW8.encode = some arW8 ∧
    decodeVoteRequest vqW8.encode = some vqW8 ∧
    decodeVoteResponse vrW8.encode = some vrW8 ∧
    decodePeerState (encodePeerState psW8) = some psW8 :=
  c8_decode_encode_identity aeW8 arW8 vqW8 vrW8 psW8
    (by decide) (by decide) (by decide) (by decide) (by decide)

/-- Witness for C10: a leader whose other peers are at least at the
compaction index returns `nil` without compacting. -/
theorem c10_witness : Compact nW10 7 = (nW10, none, false) :=
  (c10_compact_leader_frame nW10 7).1 rfl (by decide)

end NatsRaft
